import Mathlib

/-!
Verification development for the detectx-server Python client
(`scripts/python/inference_client.py` and `scripts/python/batch_inference.py`).

The Python source is shallowly embedded: pure fragments become Lean
functions, exceptions become `Except String`, the wall clock and the
network are explicit parameters (an attempt-indexed operation result, an
`HttpResponse` value), and Python `float` arithmetic on the small dyadic
constants involved is modelled exactly over `ℚ`.
-/

namespace DetectX

/-! ### Character/string helpers

Python string operations used by the source (`str.lower`, the `in`
substring test, `str.upper`, suffix matching for `glob`) are modelled
over `List Char`.  The messages involved are ASCII, so per-character
case mapping agrees with Python's. -/

/-- A list of characters `p` is a prefix of `s`. -/
def hasPref : List Char → List Char → Bool
  | [], _ => true
  | _ :: _, [] => false
  | a :: as, b :: bs => a == b && hasPref as bs

/-- A list of characters `p` occurs as a contiguous run inside `s`. -/
def hasSub (p : List Char) : List Char → Bool
  | [] => hasPref p []
  | b :: bs => hasPref p (b :: bs) || hasSub p bs

/-- Python `needle in hay` on strings (substring containment). -/
def strContains (hay needle : String) : Bool :=
  hasSub needle.data hay.data

/-- Python `str.lower` (ASCII). -/
def lowerStr (s : String) : String :=
  ⟨s.data.map Char.toLower⟩

/-- Python `str.upper` (ASCII). -/
def upperStr (s : String) : String :=
  ⟨s.data.map Char.toUpper⟩

/-- Python `str.endswith` / the effect of a `*{suffix}` glob pattern on
one file name (Linux `glob` is case-sensitive). -/
def strEndsWith (s suffix : String) : Bool :=
  hasPref suffix.data.reverse s.data.reverse

/-! ### Data model -/

/-- One decoded detection from the service response
(JSON shape `{label, class_id, confidence, bbox_pixels, bbox_yolo}`). -/
structure Detection where
  label : String
  class_id : Nat
  confidence : ℚ
  bbox_pixels : ℤ × ℤ × ℤ × ℤ
  bbox_yolo : ℚ × ℚ × ℚ × ℚ
deriving DecidableEq, Repr

/-- The per-task result dictionary built by `process_single_image`.
Keys absent from a given Python dict are modelled by defaults:
a failure dict has no `detections`/`inference_time` key (`[]` / `0`
here, matching the `r.get('detections', [])` read used downstream),
and a success dict has no `error` key (`none` here). -/
structure TaskOutcome where
  index : Nat
  image : String
  success : Bool
  detections : List Detection
  inference_time : ℚ
  error : Option String
  attempts : Nat
deriving DecidableEq, Repr

/-- Result of one run of the retry loop, instrumented with the sleeps
performed (`time.sleep` durations, in order) and the number of times the
wrapped operation was invoked. -/
structure RetryRes where
  outcome : TaskOutcome
  sleeps : List ℚ
  calls : Nat
deriving DecidableEq, Repr

/-! ### Retry Policy (`process_single_image`, batch_inference.py lines 33-72) -/

/-- The busy classification from line 52:
`'busy' in error_msg.lower() or '503' in error_msg`. -/
def isBusy (msg : String) : Bool :=
  strContains (lowerStr msg) "busy" || strContains msg "503"

/-- One step of the `for attempt in range(max_retries)` loop.
`op n` is the outcome of invoking `client.infer_jpeg` on attempt `n`:
either the decoded detections together with the measured wall-clock
inference time, or the text of the exception raised.  `remaining` is the
number of loop iterations left; the loop is entered with
`attempt = 0, remaining = maxRetries`, so `attempt + remaining =
maxRetries` throughout.  Falling out of the loop produces the
`'Max retries exceeded'` dictionary of lines 66-72. -/
def processGo (op : Nat → Except String (List Detection × ℚ)) (index : Nat)
    (image : String) (maxRetries : Nat) : Nat → Nat → RetryRes
  | _, 0 =>
    ⟨⟨index, image, false, [], 0, some "Max retries exceeded", maxRetries⟩, [], 0⟩
  | attempt, remaining + 1 =>
    match op attempt with
    | .ok (dets, t) =>
      ⟨⟨index, image, true, dets, t, none, attempt + 1⟩, [], 1⟩
    | .error msg =>
      if isBusy msg && decide (attempt < maxRetries - 1) then
        let rest := processGo op index image maxRetries (attempt + 1) remaining
        ⟨rest.outcome, (1 / 2 : ℚ) * ((attempt : ℚ) + 1) :: rest.sleeps, rest.calls + 1⟩
      else
        ⟨⟨index, image, false, [], 0, some msg, attempt + 1⟩, [], 1⟩

/-- `process_single_image(client, image_path, index, max_retries)`. -/
def process_single_image (op : Nat → Except String (List Detection × ℚ))
    (index : Nat) (image : String) (maxRetries : Nat := 3) : RetryRes :=
  processGo op index image maxRetries 0 maxRetries

/-! ### Protocol Adapter (`InferenceClient`, inference_client.py) -/

/-- An HTTP response from the service, with the `detections` array of its
JSON body already decoded (the code reads `response.json()['detections']`
only on status 200). -/
structure HttpResponse where
  status : Nat
  detections : List Detection
deriving DecidableEq, Repr

/-- The message of the `requests.HTTPError` raised by
`response.raise_for_status()` for a 4xx/5xx status
(`"{code} Client Error: ..."` / `"{code} Server Error: ..."`). -/
def httpErrorMsg (status : Nat) : String :=
  toString status ++ (if status < 500 then " Client Error" else " Server Error")

/-- Status-code dispatch of `infer_jpeg` (lines 144-152).  `ok (some ds)`
is a returned detection list, `ok none` is Python's implicit `None`
return (a non-200/204 status that `raise_for_status` lets through),
`error` is a raised exception's text. -/
def infer_jpeg_handle (resp : HttpResponse) :
    Except String (Option (List Detection)) :=
  if resp.status = 200 then .ok (some resp.detections)
  else if resp.status = 204 then .ok (some [])
  else if resp.status = 503 then .error "Server busy - queue full"
  else if 400 ≤ resp.status ∧ resp.status ≤ 599 then .error (httpErrorMsg resp.status)
  else .ok none

/-- `infer_jpeg` after the image has been read/re-encoded: one POST is
issued and its response handled.  The second component counts network
calls made. -/
def infer_jpeg (resp : HttpResponse) :
    Except String (Option (List Detection)) × Nat :=
  (infer_jpeg_handle resp, 1)

/-- A NumPy array as far as `infer_tensor` inspects one: its shape,
its dtype name, and its raw bytes. -/
structure NpArray where
  shape : List Nat
  dtype : String
  data : List Nat
deriving DecidableEq, Repr

/-- Status-code dispatch of `infer_tensor` (lines 192-199); textually
identical to the `infer_jpeg` one. -/
def infer_tensor_handle (resp : HttpResponse) :
    Except String (Option (List Detection)) :=
  if resp.status = 200 then .ok (some resp.detections)
  else if resp.status = 204 then .ok (some [])
  else if resp.status = 503 then .error "Server busy - queue full"
  else if 400 ≤ resp.status ∧ resp.status ≤ 599 then .error (httpErrorMsg resp.status)
  else .ok none

/-- `infer_tensor(rgb_array, image_index)` (lines 154-199): validate the
array shape (`ndim != 3 or shape[2] != 3`) and dtype (`!= np.uint8`),
raising `ValueError` locally before any POST; otherwise issue exactly one
POST and dispatch on its status.  `resp` is the response the service
would give to that POST; the second component counts network calls. -/
def infer_tensor (arr : NpArray) (resp : HttpResponse) :
    Except String (Option (List Detection)) × Nat :=
  if arr.shape.length ≠ 3 ∨ arr.shape.getD 2 0 ≠ 3 then
    (.error ("Expected shape (H, W, 3), got " ++ toString arr.shape), 0)
  else if arr.dtype ≠ "uint8" then
    (.error ("Expected dtype uint8, got " ++ arr.dtype), 0)
  else
    (infer_tensor_handle resp, 1)

/-! ### Preprocessor (`preprocess_image_to_tensor`, lines 201-236) -/

/-- An RGB image as PIL exposes it to this code: a width, a height and a
pixel accessor (values are 8-bit RGB triples). -/
structure Img where
  width : Nat
  height : Nat
  pix : Nat → Nat → Nat × Nat × Nat

/-- Line 220: `scale = min(target_size[0] / img.width, target_size[1] / img.height)`. -/
def letterScale (iw ih tw th : Nat) : ℚ :=
  min ((tw : ℚ) / (iw : ℚ)) ((th : ℚ) / (ih : ℚ))

/-- Line 221: `new_w = int(img.width * scale)` — Python `int()` truncates
toward zero, which is `floor` on these non-negative values. -/
def letterNewW (iw ih tw th : Nat) : Nat :=
  (⌊(iw : ℚ) * letterScale iw ih tw th⌋).toNat

/-- Line 222: `new_h = int(img.height * scale)`. -/
def letterNewH (iw ih tw th : Nat) : Nat :=
  (⌊(ih : ℚ) * letterScale iw ih tw th⌋).toNat

/-- Line 231: `offset_x = (target_size[0] - new_w) // 2`. -/
def letterOffX (iw ih tw th : Nat) : Nat :=
  (tw - letterNewW iw ih tw th) / 2

/-- Line 232: `offset_y = (target_size[1] - new_h) // 2`. -/
def letterOffY (iw ih tw th : Nat) : Nat :=
  (th - letterNewH iw ih tw th) / 2

/-- Lines 217-233: resize to `(new_w, new_h)` with `Image.BILINEAR`,
allocate a black `(tw, th)` canvas, paste the resized image at the
centred offset.  `resize` stands for PIL's `Image.resize`, abstract
here; `paste` clips to the canvas, and inside the pasted region the
canvas shows the resized image's pixels. -/
def letterboxImg (resize : Img → Nat → Nat → Img) (img : Img) (tw th : Nat) : Img :=
  let nW := letterNewW img.width img.height tw th
  let nH := letterNewH img.width img.height tw th
  let resized := resize img nW nH
  let oX := letterOffX img.width img.height tw th
  let oY := letterOffY img.width img.height tw th
  { width := tw
    height := th
    pix := fun x y =>
      if oX ≤ x ∧ x < oX + resized.width ∧ oY ≤ y ∧ y < oY + resized.height then
        resized.pix (x - oX) (y - oY)
      else (0, 0, 0) }

/-- Line 236: `np.array(result, dtype=np.uint8)` — row-major
`(height, width)` nested list of RGB triples. -/
def imgToTensor (img : Img) : List (List (Nat × Nat × Nat)) :=
  (List.range img.height).map fun y => (List.range img.width).map fun x => img.pix x y

/-- `preprocess_image_to_tensor(image_path, target_size)` on an image
already converted to RGB. -/
def preprocess_image_to_tensor (resize : Img → Nat → Nat → Img) (img : Img)
    (tw th : Nat) : List (List (Nat × Nat × Nat)) :=
  imgToTensor (letterboxImg resize img tw th)

/-! ### Batch Scheduler (`batch_inference`, lines 75-166) -/

/-- Insertion of one element into a list sorted by the boolean
comparator `le` (used to model Python's `sorted` / `list.sort`). -/
def insertOrd (le : α → α → Bool) (x : α) : List α → List α
  | [] => [x]
  | y :: ys => if le x y then x :: y :: ys else y :: insertOrd le x ys

/-- Sorting by a boolean comparator. -/
def sortOrd (le : α → α → Bool) : List α → List α
  | [] => []
  | x :: xs => insertOrd le x (sortOrd le xs)

/-- Lexicographic order on character lists (how `sorted` compares the
path strings in line 102). -/
def lexLe : List Char → List Char → Bool
  | [], _ => true
  | _ :: _, [] => false
  | a :: as, b :: bs =>
    decide (a.toNat < b.toNat) || (decide (a.toNat = b.toNat) && lexLe as bs)

/-- String comparison for `sorted(image_files)`. -/
def strLe (a b : String) : Bool := lexLe a.data b.data

/-- Lines 97-100: `image_files.extend(image_dir.glob(f'*{ext}'))` —
`glob('*' + pat)` keeps the directory entries whose name ends with
`pat`, case-sensitively (Linux). -/
def globFiles (files : List String) (pat : String) : List String :=
  files.filter fun f => strEndsWith f pat

/-- Lines 96-102: accumulate the globs of each configured extension and
of its upper-cased variant, then `sorted(...)`.  `files` is the
directory listing. -/
def findImages (files : List String) (exts : List String) : List String :=
  sortOrd strLe
    (exts.foldl (fun acc ext => acc ++ globFiles files ext ++ globFiles files (upperStr ext)) [])

/-- Line 119: `enumerate(image_files)` — the (index, path) task list. -/
def imageTasks (files : List String) (exts : List String) : List (Nat × String) :=
  (findImages files exts).enum

/-- The outcome each worker hands back, per task index (lines 117-120):
worker `i` runs `process_single_image(client, image_files[i], i)`.
`ops i` is the attempt-indexed behaviour of the service for image `i`. -/
def canonicalOutcomes (ops : Nat → Nat → Except String (List Detection × ℚ))
    (images : List String) (maxRetries : Nat) : List TaskOutcome :=
  images.enum.map fun p => (process_single_image (ops p.1) p.1 p.2 maxRetries).outcome

/-- Line 136: `results.sort(key=lambda x: x['index'])`. -/
def sortResults (results : List TaskOutcome) : List TaskOutcome :=
  sortOrd (fun a b => decide (a.index ≤ b.index)) results

/-! ### Result Aggregator (lines 139-161) -/

/-- Lookup in the insertion-ordered histogram (Python dict read
`class_counts.get(label, 0)`). -/
def countOf : List (String × Nat) → String → Nat
  | [], _ => 0
  | (k, v) :: rest, l => if k = l then v else countOf rest l

/-- Line 150: `class_counts[label] = class_counts.get(label, 0) + 1` —
increment the key's entry, inserting it at the end if absent
(dict insertion order). -/
def bumpLabel : List (String × Nat) → String → List (String × Nat)
  | [], l => [(l, 1)]
  | (k, v) :: rest, l => if k = l then (k, v + 1) :: rest else (k, v) :: bumpLabel rest l

/-- Lines 146-150: the label histogram over every detection of every
successful outcome. -/
def buildCounts (successful : List TaskOutcome) : List (String × Nat) :=
  successful.foldl (fun acc r => (r.detections.map (·.label)).foldl bumpLabel acc) []

/-- The `stats` dictionary of lines 152-161. -/
structure BatchStats where
  total_images : Nat
  successful : Nat
  failed : Nat
  total_detections : Nat
  total_time : ℚ
  avg_inference_time : ℚ
  images_per_second : ℚ
  class_counts : List (String × Nat)
deriving DecidableEq, Repr

/-- Lines 139-161: reduce the sorted outcome list plus the measured
batch wall time into the statistics block.  (`total_images` is the file
count, which equals `results.length` once every worker has reported.) -/
def computeStats (results : List TaskOutcome) (totalImages : Nat)
    (totalTime : ℚ) : BatchStats :=
  let successful := results.filter (·.success)
  let failed := results.filter fun r => !r.success
  { total_images := totalImages
    successful := successful.length
    failed := failed.length
    total_detections := (successful.map fun r => r.detections.length).sum
    total_time := totalTime
    avg_inference_time :=
      if successful.length = 0 then 0
      else (successful.map (·.inference_time)).sum / (successful.length : ℚ)
    images_per_second := (totalImages : ℚ) / totalTime
    class_counts := buildCounts successful }

/-! ### Concrete inputs used by the witnesses -/

/-- A service that reports a full queue on every attempt. -/
def busyOp : Nat → Except String (List Detection × ℚ) :=
  fun _ => .error "Server busy - queue full"

/-- A service that is busy once, then raises a non-busy error. -/
def busyThenFatalOp : Nat → Except String (List Detection × ℚ) :=
  fun n => if n = 0 then .error "Server busy - queue full"
           else .error "No such file or directory"

/-- A non-503 HTTP failure whose message happens to contain `503`. -/
def op404 : Nat → Except String (List Detection × ℚ) :=
  fun _ => .error "404 Client Error for url: http://cam/img503.jpg"

/-- A resize stub that returns its input unchanged. -/
def idResize : Img → Nat → Nat → Img := fun i _ _ => i

/-- A resize stub honouring the requested output dimensions. -/
def stubResize : Img → Nat → Nat → Img :=
  fun _ w h => ⟨w, h, fun _ _ => (1, 2, 3)⟩

/-- A concrete 2x2 image with constant pixels. -/
def constImg : Img := ⟨2, 2, fun _ _ => (9, 8, 7)⟩

/-- Two concrete task outcomes: one success carrying one detection, one
failure. -/
def aggWitnessResults : List TaskOutcome :=
  [⟨0, "a.jpg", true, [⟨"person", 0, 9 / 10, (1, 2, 3, 4), (0, 0, 0, 0)⟩], 2, none, 1⟩,
   ⟨1, "b.jpg", false, [], 0, some "No such file or directory", 1⟩]

/-! ### Generic list lemmas -/

theorem insertOrd_perm (le : α → α → Bool) (x : α) (l : List α) :
    (insertOrd le x l).Perm (x :: l) := by
  induction l with
  | nil => exact List.Perm.refl _
  | cons y ys ih =>
    simp only [insertOrd]
    split
    · exact List.Perm.refl _
    · exact (ih.cons y).trans (List.Perm.swap x y ys)

theorem sortOrd_perm (le : α → α → Bool) (l : List α) : (sortOrd le l).Perm l := by
  induction l with
  | nil => exact List.Perm.refl _
  | cons x xs ih => exact (insertOrd_perm le x (sortOrd le xs)).trans (ih.cons x)

theorem insertOrd_pairwise (le : α → α → Bool)
    (htot : ∀ a b, le a b = true ∨ le b a = true)
    (htrans : ∀ a b c, le a b = true → le b c = true → le a c = true)
    (x : α) (l : List α) (hl : l.Pairwise fun a b => le a b = true) :
    (insertOrd le x l).Pairwise fun a b => le a b = true := by
  induction l with
  | nil => simp [insertOrd]
  | cons y ys ih =>
    rcases List.pairwise_cons.1 hl with ⟨hy, hys⟩
    simp only [insertOrd]
    split
    case isTrue hxy =>
      refine List.pairwise_cons.2 ⟨?_, hl⟩
      intro z hz
      rcases List.mem_cons.1 hz with rfl | hz
      · exact hxy
      · exact htrans x y z hxy (hy z hz)
    case isFalse hxy =>
      have hyx : le y x = true := by
        rcases htot x y with h | h
        · exact absurd h hxy
        · exact h
      refine List.pairwise_cons.2 ⟨?_, ih hys⟩
      intro z hz
      have hz' : z = x ∨ z ∈ ys := by
        have := (insertOrd_perm le x ys).mem_iff.1 hz
        simpa using this
      rcases hz' with rfl | hz'
      · exact hyx
      · exact hy z hz'

theorem sortOrd_pairwise (le : α → α → Bool)
    (htot : ∀ a b, le a b = true ∨ le b a = true)
    (htrans : ∀ a b c, le a b = true → le b c = true → le a c = true)
    (l : List α) : (sortOrd le l).Pairwise fun a b => le a b = true := by
  induction l with
  | nil => simp [sortOrd]
  | cons x xs ih => exact insertOrd_pairwise le htot htrans x _ ih

theorem length_filter_add_length_filter_not (p : α → Bool) (l : List α) :
    (l.filter p).length + (l.filter fun a => !p a).length = l.length := by
  induction l with
  | nil => rfl
  | cons x xs ih =>
    cases h : p x <;> simp [List.filter_cons, h] <;> omega

theorem lexLe_total : ∀ a b : List Char, lexLe a b = true ∨ lexLe b a = true
  | [], _ => Or.inl rfl
  | _ :: _, [] => Or.inr rfl
  | a :: as, b :: bs => by
    simp only [lexLe, Bool.or_eq_true, Bool.and_eq_true, decide_eq_true_eq]
    rcases Nat.lt_trichotomy a.toNat b.toNat with h | h | h
    · exact Or.inl (Or.inl h)
    · rcases lexLe_total as bs with ih | ih
      · exact Or.inl (Or.inr ⟨h, ih⟩)
      · exact Or.inr (Or.inr ⟨h.symm, ih⟩)
    · exact Or.inr (Or.inl h)

theorem lexLe_trans : ∀ a b c : List Char,
    lexLe a b = true → lexLe b c = true → lexLe a c = true
  | [], _, _, _, _ => rfl
  | _ :: _, [], _, hab, _ => by simp [lexLe] at hab
  | _ :: _, _ :: _, [], _, hbc => by simp [lexLe] at hbc
  | a :: as, b :: bs, c :: cs, hab, hbc => by
    simp only [lexLe, Bool.or_eq_true, Bool.and_eq_true, decide_eq_true_eq] at hab hbc ⊢
    rcases hab with hab | ⟨hab, hab'⟩ <;> rcases hbc with hbc | ⟨hbc, hbc'⟩
    · exact Or.inl (by omega)
    · exact Or.inl (by omega)
    · exact Or.inl (by omega)
    · exact Or.inr ⟨by omega, lexLe_trans as bs cs hab' hbc'⟩

theorem strLe_total (a b : String) : strLe a b = true ∨ strLe b a = true :=
  lexLe_total a.data b.data

theorem strLe_trans (a b c : String) :
    strLe a b = true → strLe b c = true → strLe a c = true :=
  lexLe_trans a.data b.data c.data

/-! ### Histogram lemmas -/

theorem countOf_bumpLabel (acc : List (String × Nat)) (l x : String) :
    countOf (bumpLabel acc l) x = countOf acc x + (if l = x then 1 else 0) := by
  induction acc with
  | nil =>
    simp only [bumpLabel, countOf]
    omega
  | cons p rest ih =>
    obtain ⟨k, v⟩ := p
    simp only [bumpLabel]
    split
    case isTrue hkl =>
      subst hkl
      simp only [countOf]
      split
      case isTrue hkx => simp [hkx]
      case isFalse hkx => simp [hkx]
    case isFalse hkl =>
      simp only [countOf]
      split
      case isTrue hkx =>
        have : ¬ l = x := fun h => hkl (h ▸ hkx.symm ▸ rfl)
        simp [hkx, if_neg this]
      case isFalse hkx => simp [ih]

theorem countOf_foldl_bump (labels : List String) (acc : List (String × Nat)) (x : String) :
    countOf (labels.foldl bumpLabel acc) x = countOf acc x + labels.count x := by
  induction labels generalizing acc with
  | nil => simp
  | cons l ls ih =>
    simp only [List.foldl_cons, ih, countOf_bumpLabel, List.count_cons, beq_iff_eq]
    by_cases h : l = x
    · simp [h]; omega
    · have h' : ¬ x = l := fun hh => h hh.symm
      simp [h, h']

theorem countOf_buildCounts (rs : List TaskOutcome) (x : String) :
    countOf (buildCounts rs) x
      = ((rs.map fun r => r.detections.map (·.label)).flatten).count x := by
  have h1 : buildCounts rs
      = ((rs.map fun r => r.detections.map (·.label)).flatten).foldl bumpLabel [] := by
    rw [List.foldl_flatten, List.foldl_map]
    rfl
  rw [h1, countOf_foldl_bump]
  simp [countOf]

/-! ### Retry-loop lemmas -/

theorem processGo_fixed (op : Nat → Except String (List Detection × ℚ))
    (i : Nat) (img : String) (m : Nat) :
    ∀ (remaining attempt : Nat),
      (processGo op i img m attempt remaining).outcome.index = i ∧
      (processGo op i img m attempt remaining).outcome.image = img
  | 0, _ => ⟨rfl, rfl⟩
  | remaining + 1, attempt => by
    cases h : op attempt with
    | ok v =>
      obtain ⟨dets, t⟩ := v
      simp [processGo, h]
    | error msg =>
      cases hc : isBusy msg && decide (attempt < m - 1)
      · simp [processGo, h, hc]
      · simp only [processGo, h, hc, if_true]
        exact processGo_fixed op i img m remaining (attempt + 1)

theorem processGo_calls_pos (op : Nat → Except String (List Detection × ℚ))
    (i : Nat) (img : String) (m : Nat) :
    ∀ (remaining attempt : Nat), 1 ≤ remaining →
      1 ≤ (processGo op i img m attempt remaining).calls
  | 0, _, h => absurd h (by omega)
  | remaining + 1, attempt, _ => by
    cases h : op attempt with
    | ok v =>
      obtain ⟨dets, t⟩ := v
      simp [processGo, h]
    | error msg =>
      cases hc : isBusy msg && decide (attempt < m - 1) <;>
        simp [processGo, h, hc]

theorem processGo_main (op : Nat → Except String (List Detection × ℚ))
    (i : Nat) (img : String) (m : Nat) :
    ∀ (remaining attempt : Nat), attempt + remaining = m →
      ((processGo op i img m attempt remaining).outcome.attempts
          = attempt + (processGo op i img m attempt remaining).calls)
      ∧ ((processGo op i img m attempt remaining).sleeps
          = (List.range' attempt ((processGo op i img m attempt remaining).calls - 1)).map
              fun k : Nat => (1 / 2 : ℚ) * ((k : ℚ) + 1))
  | 0, attempt, hinv => by
    refine ⟨?_, rfl⟩
    simp only [processGo]
    omega
  | remaining + 1, attempt, hinv => by
    cases h : op attempt with
    | ok v =>
      obtain ⟨dets, t⟩ := v
      simp [processGo, h]
    | error msg =>
      cases hc : isBusy msg && decide (attempt < m - 1)
      · simp [processGo, h, hc, List.range']
      · have hlt : attempt < m - 1 := by
          have h2 := hc
          simp only [Bool.and_eq_true, decide_eq_true_eq] at h2
          exact h2.2
        have hrem : 1 ≤ remaining := by omega
        have hinv' : (attempt + 1) + remaining = m := by omega
        obtain ⟨ha, hs⟩ := processGo_main op i img m remaining (attempt + 1) hinv'
        have hcalls : 1 ≤ (processGo op i img m (attempt + 1) remaining).calls :=
          processGo_calls_pos op i img m remaining (attempt + 1) hrem
        simp only [processGo, h, hc, if_true]
        constructor
        · simp only [ha]
          omega
        · simp only [hs]
          have hn : (processGo op i img m (attempt + 1) remaining).calls + 1 - 1
              = ((processGo op i img m (attempt + 1) remaining).calls - 1) + 1 := by omega
          rw [hn, List.range'_succ]
          simp

theorem processGo_firstNonBusy (op : Nat → Except String (List Detection × ℚ))
    (i : Nat) (img : String) (m : Nat) :
    ∀ (remaining attempt j : Nat) (msg : String), attempt + remaining = m →
      attempt ≤ j → j < m →
      (∀ k, attempt ≤ k → k < j → ∃ mm, op k = .error mm ∧ isBusy mm = true) →
      op j = .error msg → isBusy msg = false →
      (processGo op i img m attempt remaining).outcome
          = ⟨i, img, false, [], 0, some msg, j + 1⟩
      ∧ (processGo op i img m attempt remaining).calls = j + 1 - attempt
  | 0, attempt, j, msg, hinv, haj, hjm, _, _, _ => by omega
  | remaining + 1, attempt, j, msg, hinv, haj, hjm, hbusy, hj, hnb => by
    by_cases heq : attempt = j
    · subst heq
      have hcf : ¬ ((isBusy msg && decide (attempt < m - 1)) = true) := by
        simp [hnb]
      simp only [processGo, hj]
      rw [if_neg hcf]
      refine ⟨rfl, ?_⟩
      dsimp only
      omega
    · have haj' : attempt < j := by omega
      obtain ⟨mm, hmm, hmmbusy⟩ := hbusy attempt (Nat.le_refl _) haj'
      have hcond : (isBusy mm && decide (attempt < m - 1)) = true := by
        have hlt : attempt < m - 1 := by omega
        simp [hmmbusy, hlt]
      have hinv' : (attempt + 1) + remaining = m := by omega
      obtain ⟨ho, hc⟩ := processGo_firstNonBusy op i img m remaining (attempt + 1) j msg
        hinv' (by omega) hjm
        (fun k hk1 hk2 => hbusy k (by omega) hk2) hj hnb
      simp only [processGo, hmm, hcond, if_true]
      exact ⟨ho, by omega⟩

/-! ### Claim theorems -/

/-- C1: for every operation wrapped by the Retry Policy with bound
`maxRetries`, the outcome's `attempts` field equals the number of
attempts actually made; the sleeps performed are exactly
`0.5 * (attemptNumber + 1)` seconds after each non-final (busy) attempt,
a non-decreasing schedule; and a non-busy failure (all earlier attempts
having been busy) terminates the loop immediately with that error and no
further attempts. -/
theorem retry_backoff_schedule_and_attempt_count
    (op : Nat → Except String (List Detection × ℚ))
    (index : Nat) (image : String) (maxRetries : Nat) :
    ((process_single_image op index image maxRetries).outcome.attempts
        = (process_single_image op index image maxRetries).calls)
    ∧ ((process_single_image op index image maxRetries).sleeps
        = (List.range ((process_single_image op index image maxRetries).calls - 1)).map
            fun k : Nat => (1 / 2 : ℚ) * ((k : ℚ) + 1))
    ∧ List.Pairwise (fun a b : ℚ => a ≤ b)
        (process_single_image op index image maxRetries).sleeps
    ∧ ∀ (j : Nat) (msg : String), j < maxRetries →
        (∀ k, k < j → ∃ mm, op k = .error mm ∧ isBusy mm = true) →
        op j = .error msg → isBusy msg = false →
        (process_single_image op index image maxRetries).outcome
            = ⟨index, image, false, [], 0, some msg, j + 1⟩
        ∧ (process_single_image op index image maxRetries).calls = j + 1 := by
  simp only [process_single_image]
  obtain ⟨ha, hs⟩ :=
    processGo_main op index image maxRetries maxRetries 0 (by omega)
  have hs' : (processGo op index image maxRetries 0 maxRetries).sleeps
      = (List.range ((processGo op index image maxRetries 0 maxRetries).calls - 1)).map
          fun k : Nat => (1 / 2 : ℚ) * ((k : ℚ) + 1) := by
    rw [List.range_eq_range']
    exact hs
  refine ⟨by simpa using ha, hs', ?_, ?_⟩
  · rw [hs']
    have hp : List.Pairwise
        (fun a b : ℕ => (1 / 2 : ℚ) * ((a : ℚ) + 1) ≤ (1 / 2 : ℚ) * ((b : ℚ) + 1))
        (List.range ((processGo op index image maxRetries 0 maxRetries).calls - 1)) := by
      refine (List.pairwise_lt_range _).imp ?_
      intro a b hab
      have hle : (a : ℚ) ≤ (b : ℚ) := by exact_mod_cast Nat.le_of_lt hab
      linarith
    exact (@List.pairwise_map ℕ ℚ
      (fun k : Nat => (1 / 2 : ℚ) * ((k : ℚ) + 1)) (fun a b => a ≤ b) _).2 hp
  · intro j msg hj hb hmsg hnb
    have h := processGo_firstNonBusy op index image maxRetries maxRetries 0 j msg
      (by omega) (by omega) hj (fun k _ hk => hb k hk) hmsg hnb
    refine ⟨h.1, ?_⟩
    rw [h.2]
    omega

/-- Witness for the C1 theorem: service busy on attempt 0, then a
non-busy error on attempt 1, with `maxRetries = 3`. -/
theorem retry_backoff_schedule_and_attempt_count_witness :
    ((process_single_image busyThenFatalOp 7 "a.jpg" 3).outcome.attempts
        = (process_single_image busyThenFatalOp 7 "a.jpg" 3).calls)
    ∧ ((process_single_image busyThenFatalOp 7 "a.jpg" 3).sleeps
        = (List.range ((process_single_image busyThenFatalOp 7 "a.jpg" 3).calls - 1)).map
            fun k : Nat => (1 / 2 : ℚ) * ((k : ℚ) + 1))
    ∧ List.Pairwise (fun a b : ℚ => a ≤ b)
        (process_single_image busyThenFatalOp 7 "a.jpg" 3).sleeps
    ∧ ((process_single_image busyThenFatalOp 7 "a.jpg" 3).outcome
          = ⟨7, "a.jpg", false, [], 0, some "No such file or directory", 2⟩
        ∧ (process_single_image busyThenFatalOp 7 "a.jpg" 3).calls = 2) := by
  obtain ⟨h1, h2, h3, h4⟩ :=
    retry_backoff_schedule_and_attempt_count busyThenFatalOp 7 "a.jpg" 3
  refine ⟨h1, h2, h3, h4 1 "No such file or directory" (by omega) ?_ rfl (by decide)⟩
  intro k hk
  have hk0 : k = 0 := by omega
  subst hk0
  exact ⟨"Server busy - queue full", rfl, by decide⟩

/-- C2 (code-bug evidence): when the operation is busy on all
`maxRetries = 3` attempts, `process_single_image` returns the busy
exception text as the outcome's error, not the distinguished
`'Max retries exceeded'` value — the post-loop return of lines 66-72 is
unreachable for `max_retries ≥ 1` because a busy failure on the final
attempt falls through to the `'Other errors'` return of lines 58-64. -/
theorem busy_exhaustion_keeps_busy_message :
    (process_single_image busyOp 0 "img.jpg" 3).outcome
      = ⟨0, "img.jpg", false, [], 0, some "Server busy - queue full", 3⟩
    ∧ (process_single_image busyOp 0 "img.jpg" 3).outcome.error
        ≠ some "Max retries exceeded" := by
  constructor
  · decide
  · decide

/-- C10: the retry gate is a substring match on the exception text —
retry happens exactly when the lower-cased message contains `busy` or
the message contains `503` (so a non-503 HTTP failure whose text merely
mentions `503` is retried); any other first-attempt error is returned
immediately as a failed outcome carrying that message. -/
theorem busy_substring_classification
    (op : Nat → Except String (List Detection × ℚ))
    (index : Nat) (image : String) (maxRetries : Nat) (msg : String)
    (h0 : op 0 = .error msg) (hm : 2 ≤ maxRetries) :
    ((strContains (lowerStr msg) "busy" || strContains msg "503") = true →
        2 ≤ (process_single_image op index image maxRetries).calls)
    ∧ ((strContains (lowerStr msg) "busy" || strContains msg "503") = false →
        process_single_image op index image maxRetries
          = ⟨⟨index, image, false, [], 0, some msg, 1⟩, [], 1⟩) := by
  constructor
  · intro hb
    have hbusy : isBusy msg = true := hb
    obtain ⟨r, hr⟩ : ∃ r, maxRetries = r + 2 := ⟨maxRetries - 2, by omega⟩
    subst hr
    have hcond : (isBusy msg && decide (0 < (r + 2) - 1)) = true := by
      simp [hbusy]
    show 2 ≤ (processGo op index image (r + 2) 0 (r + 1 + 1)).calls
    have hstep : (processGo op index image (r + 2) 0 (r + 1 + 1)).calls
        = (processGo op index image (r + 2) 1 (r + 1)).calls + 1 := by
      simp only [processGo, h0]
      rw [if_pos hcond]
    rw [hstep]
    have := processGo_calls_pos op index image (r + 2) (r + 1) 1 (by omega)
    omega
  · intro hb
    have hbusy : isBusy msg = false := hb
    obtain ⟨r, hr⟩ : ∃ r, maxRetries = r + 1 := ⟨maxRetries - 1, by omega⟩
    subst hr
    have hcf : ¬ ((isBusy msg && decide (0 < (r + 1) - 1)) = true) := by
      simp [hbusy]
    show processGo op index image (r + 1) 0 (r + 1) = _
    simp only [processGo, h0]
    rw [if_neg hcf]

/-- Witness for the C10 theorem: a 404 HTTP error whose URL happens to
contain the substring `503` is (mis)classified as busy and retried. -/
theorem busy_substring_classification_witness :
    (strContains (lowerStr "404 Client Error for url: http://cam/img503.jpg") "busy"
        || strContains "404 Client Error for url: http://cam/img503.jpg" "503") = true
    ∧ 2 ≤ (process_single_image op404 5 "x.png" 3).calls := by
  have h := busy_substring_classification op404 5 "x.png" 3
    "404 Client Error for url: http://cam/img503.jpg" rfl (by omega)
  exact ⟨by decide, h.1 (by decide)⟩

/-- C5: a 204 response yields an empty detection list as a successful
result — never an error — on both the JPEG and the tensor endpoint. -/
theorem status_204_yields_empty_detections
    (respJ respT : HttpResponse) (arr : NpArray)
    (hj : respJ.status = 204) (ht : respT.status = 204)
    (hnd : arr.shape.length = 3) (hch : arr.shape.getD 2 0 = 3)
    (hdt : arr.dtype = "uint8") :
    (infer_jpeg respJ).1 = .ok (some [])
    ∧ (infer_tensor arr respT).1 = .ok (some []) := by
  constructor
  · simp [infer_jpeg, infer_jpeg_handle, hj]
  · have hok : ¬ (arr.shape.length ≠ 3 ∨ arr.shape.getD 2 0 ≠ 3) := by
      push_neg
      exact ⟨hnd, hch⟩
    unfold infer_tensor
    rw [if_neg hok, if_neg (by simp [hdt])]
    simp [infer_tensor_handle, ht]

/-- Witness for the C5 theorem at a concrete 204 response and a valid
640x640x3 uint8 tensor. -/
theorem status_204_yields_empty_detections_witness :
    (infer_jpeg ⟨204, []⟩).1 = .ok (some [])
    ∧ (infer_tensor ⟨[640, 640, 3], "uint8", []⟩ ⟨204, []⟩).1 = .ok (some []) :=
  status_204_yields_empty_detections ⟨204, []⟩ ⟨204, []⟩ ⟨[640, 640, 3], "uint8", []⟩
    rfl rfl rfl rfl rfl

/-- C6: a tensor that is not 3-dimensional with 3 channels, or is not
uint8, fails locally with a `ValueError` and zero network calls; a
well-shaped uint8 `(H, W, 3)` array passes validation and issues exactly
one network call. -/
theorem tensor_validation_gates_network (arr : NpArray) (resp : HttpResponse) :
    ((arr.shape.length ≠ 3 ∨ arr.shape.getD 2 0 ≠ 3 ∨ arr.dtype ≠ "uint8") →
        (infer_tensor arr resp).2 = 0
        ∧ ∃ e, (infer_tensor arr resp).1 = .error e)
    ∧ (arr.shape.length = 3 → arr.shape.getD 2 0 = 3 → arr.dtype = "uint8" →
        (infer_tensor arr resp).2 = 1) := by
  constructor
  · intro h
    rcases Decidable.em (arr.shape.length ≠ 3 ∨ arr.shape.getD 2 0 ≠ 3) with h1 | h1
    · unfold infer_tensor
      rw [if_pos h1]
      exact ⟨rfl, _, rfl⟩
    · have hd : arr.dtype ≠ "uint8" := by tauto
      unfold infer_tensor
      rw [if_neg h1, if_pos hd]
      exact ⟨rfl, _, rfl⟩
  · intro h1 h2 h3
    have hok : ¬ (arr.shape.length ≠ 3 ∨ arr.shape.getD 2 0 ≠ 3) := by
      push_neg
      exact ⟨h1, h2⟩
    unfold infer_tensor
    rw [if_neg hok, if_neg (by simp [h3])]

/-- Witness for the C6 theorem: a 2-dimensional array is rejected with
no network call; a 4x4x3 uint8 array passes and issues one call. -/
theorem tensor_validation_gates_network_witness :
    (infer_tensor ⟨[2, 2], "uint8", []⟩ ⟨200, []⟩).2 = 0
    ∧ (∃ e, (infer_tensor ⟨[2, 2], "uint8", []⟩ ⟨200, []⟩).1 = .error e)
    ∧ (infer_tensor ⟨[4, 4, 3], "uint8", []⟩ ⟨200, []⟩).2 = 1 := by
  obtain ⟨ha, hb⟩ :=
    (tensor_validation_gates_network ⟨[2, 2], "uint8", []⟩ ⟨200, []⟩).1 (Or.inl (by decide))
  have hc :=
    (tensor_validation_gates_network ⟨[4, 4, 3], "uint8", []⟩ ⟨200, []⟩).2 rfl rfl rfl
  exact ⟨ha, hb, hc⟩

/-- Helper: indexing a map over `List.range`. -/
theorem getD_map_range {β : Type _} (n y : Nat) (f : Nat → β) (d : β) (hy : y < n) :
    ((List.range n).map f).getD y d = f y := by
  simp [List.getD_eq_getElem?_getD, List.getElem?_map, List.getElem?_range hy]

/-- C3 counterexample: the claim says the resized width is
`round(iw * scale)`, but at `(iw, ih) = (3, 2)` and target `(2, 1)` the
code computes `int(3 * 0.5) = 1` while `round(3 * 0.5) = 2`. -/
theorem letterbox_truncates_not_rounds :
    letterNewW 3 2 2 1 = 1 ∧ round ((3 : ℚ) * letterScale 3 2 2 1) = 2 := by
  constructor
  · unfold letterNewW letterScale
    norm_num [min_def]
  · unfold letterScale
    rw [round_eq]
    norm_num [min_def]

/-- C3 (amended: the code truncates the scaled dimensions with `int`,
i.e. floor, not round): for every positive-size RGB image and target,
with PIL's `resize` honouring its requested output size, the
Preprocessor computes `scale = min(tw/iw, th/ih)`, resizes to
`(floor(iw*scale), floor(ih*scale))`, fills a `(tw, th)` canvas with
black `(0,0,0)`, pastes the resized image at offset
`((tw-rw)//2, (th-rh)//2)`, and returns a pixel tensor of exact shape
`(th, tw, 3)`; the result is a pure function of the inputs. -/
theorem letterbox_floor_spec (resize : Img → Nat → Nat → Img) (img : Img)
    (tw th : Nat) (hw : 0 < img.width) (hh : 0 < img.height)
    (hdim : ∀ i w h, (resize i w h).width = w ∧ (resize i w h).height = h) :
    letterScale img.width img.height tw th
        = min ((tw : ℚ) / (img.width : ℚ)) ((th : ℚ) / (img.height : ℚ))
    ∧ letterNewW img.width img.height tw th
        = (⌊(img.width : ℚ) * letterScale img.width img.height tw th⌋).toNat
    ∧ letterNewH img.width img.height tw th
        = (⌊(img.height : ℚ) * letterScale img.width img.height tw th⌋).toNat
    ∧ (preprocess_image_to_tensor resize img tw th).length = th
    ∧ (∀ row ∈ preprocess_image_to_tensor resize img tw th, row.length = tw)
    ∧ (∀ x y, x < tw → y < th →
        ((preprocess_image_to_tensor resize img tw th).getD y []).getD x (0, 0, 0)
          = if letterOffX img.width img.height tw th ≤ x
                ∧ x < letterOffX img.width img.height tw th
                      + letterNewW img.width img.height tw th
                ∧ letterOffY img.width img.height tw th ≤ y
                ∧ y < letterOffY img.width img.height tw th
                      + letterNewH img.width img.height tw th
              then (resize img (letterNewW img.width img.height tw th)
                      (letterNewH img.width img.height tw th)).pix
                    (x - letterOffX img.width img.height tw th)
                    (y - letterOffY img.width img.height tw th)
              else (0, 0, 0)) := by
  refine ⟨rfl, rfl, rfl, ?_, ?_, ?_⟩
  · simp [preprocess_image_to_tensor, imgToTensor, letterboxImg]
  · intro row hrow
    simp only [preprocess_image_to_tensor, imgToTensor, letterboxImg,
      List.mem_map] at hrow
    obtain ⟨y, hy, rfl⟩ := hrow
    simp
  · intro x y hx hy
    have h1 : (preprocess_image_to_tensor resize img tw th).getD y []
        = (List.range tw).map
            (fun x => (letterboxImg resize img tw th).pix x y) :=
      getD_map_range th y _ [] hy
    rw [h1, getD_map_range tw x _ _ hx]
    simp only [letterboxImg]
    rw [(hdim img (letterNewW img.width img.height tw th)
          (letterNewH img.width img.height tw th)).1,
        (hdim img (letterNewW img.width img.height tw th)
          (letterNewH img.width img.height tw th)).2]

/-- Witness for the amended C3 theorem: a 2x2 image letterboxed into a
3x5 target, checked at shape level and at pixel (0, 0). -/
theorem letterbox_floor_spec_witness :
    (preprocess_image_to_tensor stubResize constImg 3 5).length = 5
    ∧ ((preprocess_image_to_tensor stubResize constImg 3 5).getD 0 []).getD 0 (0, 0, 0)
        = if letterOffX 2 2 3 5 ≤ 0
              ∧ 0 < letterOffX 2 2 3 5 + letterNewW 2 2 3 5
              ∧ letterOffY 2 2 3 5 ≤ 0
              ∧ 0 < letterOffY 2 2 3 5 + letterNewH 2 2 3 5
            then (stubResize constImg (letterNewW 2 2 3 5) (letterNewH 2 2 3 5)).pix
                  (0 - letterOffX 2 2 3 5) (0 - letterOffY 2 2 3 5)
            else (0, 0, 0) := by
  obtain ⟨h1, h2, h3, h4, h5, h6⟩ :=
    letterbox_floor_spec stubResize constImg 3 5 (by decide) (by decide)
      (fun i w h => ⟨rfl, rfl⟩)
  exact ⟨h4, h6 0 0 (by decide) (by decide)⟩

/-- C8: letterboxing an image whose dimensions already equal the target
produces a tensor byte-identical to the input image's pixel data (PIL's
`resize` to an image's own size returns an identical image). -/
theorem letterbox_idempotent (resize : Img → Nat → Nat → Img) (img : Img)
    (tw th : Nat) (hw : img.width = tw) (hh : img.height = th)
    (htw : 0 < tw) (hth : 0 < th)
    (hid : ∀ i, resize i i.width i.height = i) :
    preprocess_image_to_tensor resize img tw th = imgToTensor img := by
  subst hw
  subst hh
  have hW0 : (img.width : ℚ) ≠ 0 := Nat.cast_ne_zero.2 (by omega)
  have hH0 : (img.height : ℚ) ≠ 0 := Nat.cast_ne_zero.2 (by omega)
  have hsc : letterScale img.width img.height img.width img.height = 1 := by
    unfold letterScale
    rw [div_self hW0, div_self hH0, min_self]
  have hnW : letterNewW img.width img.height img.width img.height = img.width := by
    unfold letterNewW
    rw [hsc, mul_one]
    simp
  have hnH : letterNewH img.width img.height img.width img.height = img.height := by
    unfold letterNewH
    rw [hsc, mul_one]
    simp
  have hresize : resize img (letterNewW img.width img.height img.width img.height)
      (letterNewH img.width img.height img.width img.height) = img := by
    rw [hnW, hnH]
    exact hid img
  have hoX : letterOffX img.width img.height img.width img.height = 0 := by
    unfold letterOffX
    rw [hnW]
    omega
  have hoY : letterOffY img.width img.height img.width img.height = 0 := by
    unfold letterOffY
    rw [hnH]
    omega
  show (List.range img.height).map
      (fun y => (List.range img.width).map
        fun x => (letterboxImg resize img img.width img.height).pix x y)
    = (List.range img.height).map
      (fun y => (List.range img.width).map fun x => img.pix x y)
  apply List.map_congr_left
  intro y hy
  apply List.map_congr_left
  intro x hx
  have hx' : x < img.width := List.mem_range.1 hx
  have hy' : y < img.height := List.mem_range.1 hy
  simp only [letterboxImg]
  rw [hresize, hoX, hoY]
  rw [if_pos ⟨Nat.zero_le _, by omega, Nat.zero_le _, by omega⟩]
  simp

/-- Witness for the C8 theorem: the identity resize on a concrete 2x2
image with a 2x2 target. -/
theorem letterbox_idempotent_witness :
    preprocess_image_to_tensor idResize constImg 2 2 = imgToTensor constImg :=
  letterbox_idempotent idResize constImg 2 2 rfl rfl (by decide) (by decide)
    (fun i => rfl)

/-- Helper: the worker for task `i` always reports index `i` (C4). -/
theorem canonicalOutcomes_map_index
    (ops : Nat → Nat → Except String (List Detection × ℚ))
    (images : List String) (maxRetries : Nat) :
    (canonicalOutcomes ops images maxRetries).map (·.index)
      = List.range images.length := by
  unfold canonicalOutcomes
  rw [List.map_map]
  have hcomp : ((fun r : TaskOutcome => r.index)
        ∘ fun p : Nat × String =>
            (process_single_image (ops p.1) p.1 p.2 maxRetries).outcome)
      = fun p : Nat × String => p.1 := by
    funext p
    exact (processGo_fixed (ops p.1) p.1 p.2 maxRetries maxRetries 0).1
  rw [hcomp]
  exact List.enum_map_fst images

/-- C4: for a non-empty task list, however the workers' completion order
permutes the canonical per-task outcomes, the sorted report has one
entry per submitted task, its indices are exactly `0..n-1` in ascending
order, and successes plus failures account for every entry. -/
theorem batch_report_invariants
    (ops : Nat → Nat → Except String (List Detection × ℚ))
    (images : List String) (maxRetries : Nat) (completed : List TaskOutcome)
    (hne : images ≠ [])
    (hperm : completed.Perm (canonicalOutcomes ops images maxRetries)) :
    (sortResults completed).length = images.length
    ∧ (sortResults completed).map (·.index) = List.range images.length
    ∧ ((sortResults completed).filter (·.success)).length
        + ((sortResults completed).filter fun r => !r.success).length
        = (sortResults completed).length := by
  have hperm2 : (sortResults completed).Perm (canonicalOutcomes ops images maxRetries) :=
    (sortOrd_perm _ completed).trans hperm
  have hlen : (sortResults completed).length = images.length := by
    rw [hperm2.length_eq]
    unfold canonicalOutcomes
    rw [List.length_map, List.enum_length]
  refine ⟨hlen, ?_, length_filter_add_length_filter_not _ _⟩
  have hpw : ((sortResults completed).map (·.index)).Sorted (· ≤ ·) := by
    have h1 : (sortResults completed).Pairwise
        (fun a b => (decide (a.index ≤ b.index)) = true) :=
      sortOrd_pairwise (fun a b : TaskOutcome => decide (a.index ≤ b.index))
        (fun a b => by
          rcases Nat.le_total a.index b.index with h | h
          · exact Or.inl (decide_eq_true h)
          · exact Or.inr (decide_eq_true h))
        (fun a b c hab hbc =>
          decide_eq_true (Nat.le_trans (of_decide_eq_true hab) (of_decide_eq_true hbc)))
        completed
    exact List.pairwise_map.2 (h1.imp fun h => of_decide_eq_true h)
  have hpermIdx : ((sortResults completed).map (·.index)).Perm
      (List.range images.length) := by
    have h2 := hperm2.map (·.index)
    rwa [canonicalOutcomes_map_index] at h2
  have hrange : (List.range images.length).Sorted (· ≤ ·) :=
    (List.pairwise_lt_range _).imp fun h => Nat.le_of_lt h
  exact List.eq_of_perm_of_sorted hpermIdx hpw hrange

/-- Witness for the C4 theorem: two images whose outcomes complete in
reverse order; sorting restores index order `[0, 1]`. -/
theorem batch_report_invariants_witness :
    (sortResults
        [⟨1, "a.jpg", false, [], 0, some "Server busy - queue full", 3⟩,
         ⟨0, "b.jpg", false, [], 0, some "Server busy - queue full", 3⟩]).length = 2
    ∧ (sortResults
        [⟨1, "a.jpg", false, [], 0, some "Server busy - queue full", 3⟩,
         ⟨0, "b.jpg", false, [], 0, some "Server busy - queue full", 3⟩]).map (·.index)
        = List.range 2
    ∧ ((sortResults
        [⟨1, "a.jpg", false, [], 0, some "Server busy - queue full", 3⟩,
         ⟨0, "b.jpg", false, [], 0, some "Server busy - queue full", 3⟩]).filter
          (·.success)).length
        + ((sortResults
            [⟨1, "a.jpg", false, [], 0, some "Server busy - queue full", 3⟩,
             ⟨0, "b.jpg", false, [], 0, some "Server busy - queue full", 3⟩]).filter
              fun r => !r.success).length
        = (sortResults
            [⟨1, "a.jpg", false, [], 0, some "Server busy - queue full", 3⟩,
             ⟨0, "b.jpg", false, [], 0, some "Server busy - queue full", 3⟩]).length :=
  batch_report_invariants (fun _ => busyOp) ["b.jpg", "a.jpg"] 3
    [⟨1, "a.jpg", false, [], 0, some "Server busy - queue full", 3⟩,
     ⟨0, "b.jpg", false, [], 0, some "Server busy - queue full", 3⟩]
    (by decide) (by decide)

/-- C7: the Aggregator computes `total_detections` as the sum of
detection-array lengths over successful outcomes only,
`avg_inference_time` as the mean over successful outcomes only (0 when
none succeeded), throughput as `total_images / total_elapsed_time`,
success and failure counts summing to the total, and `class_counts` as
the label histogram over every detection of every successful outcome;
it is a pure function of these inputs. -/
theorem aggregator_spec (results : List TaskOutcome) (totalImages : Nat)
    (totalTime : ℚ) :
    (computeStats results totalImages totalTime).total_detections
        = ((results.filter (·.success)).map fun r => r.detections.length).sum
    ∧ ((results.filter (·.success)).length = 0 →
        (computeStats results totalImages totalTime).avg_inference_time = 0)
    ∧ ((results.filter (·.success)).length ≠ 0 →
        (computeStats results totalImages totalTime).avg_inference_time
          = ((results.filter (·.success)).map (·.inference_time)).sum
              / ((results.filter (·.success)).length : ℚ))
    ∧ (computeStats results totalImages totalTime).images_per_second
        = (totalImages : ℚ) / totalTime
    ∧ (computeStats results totalImages totalTime).successful
          + (computeStats results totalImages totalTime).failed
        = results.length
    ∧ ∀ lab, countOf (computeStats results totalImages totalTime).class_counts lab
        = ((results.filter (·.success)).map (·.detections)).flatten.countP
            fun d => d.label == lab := by
  refine ⟨rfl, ?_, ?_, rfl, ?_, ?_⟩
  · intro h
    simp [computeStats, h]
  · intro h
    simp [computeStats, h]
  · exact length_filter_add_length_filter_not _ _
  · intro lab
    show countOf (buildCounts (results.filter (·.success))) lab = _
    rw [countOf_buildCounts]
    rw [show ((results.filter (·.success)).map fun r => r.detections.map (·.label))
          = ((results.filter (·.success)).map (·.detections)).map (List.map (·.label)) by
        rw [List.map_map]
        rfl]
    rw [← List.map_flatten, List.count_eq_countP, List.countP_map]
    rfl

/-- Witness for the C7 theorem at two concrete outcomes (one success
with a `person` detection, one failure), 2 images, 4 seconds. -/
theorem aggregator_spec_witness :
    (computeStats aggWitnessResults 2 4).total_detections
        = ((aggWitnessResults.filter (·.success)).map fun r => r.detections.length).sum
    ∧ (computeStats aggWitnessResults 2 4).avg_inference_time
        = ((aggWitnessResults.filter (·.success)).map (·.inference_time)).sum
            / ((aggWitnessResults.filter (·.success)).length : ℚ)
    ∧ (computeStats aggWitnessResults 2 4).images_per_second
        = (((2 : Nat) : ℚ)) / 4
    ∧ (computeStats aggWitnessResults 2 4).successful
          + (computeStats aggWitnessResults 2 4).failed
        = aggWitnessResults.length
    ∧ countOf (computeStats aggWitnessResults 2 4).class_counts "person"
        = ((aggWitnessResults.filter (·.success)).map (·.detections)).flatten.countP
            fun d => d.label == "person" := by
  obtain ⟨h1, h2, h3, h4, h5, h6⟩ := aggregator_spec aggWitnessResults 2 4
  exact ⟨h1, h3 (by decide), h4, h5, h6 "person"⟩

/-- Helper: membership in the accumulated glob lists of C9. -/
theorem mem_rawImages (files exts : List String) (x : String) :
    ∀ init : List String,
      (x ∈ exts.foldl
          (fun acc ext => acc ++ globFiles files ext ++ globFiles files (upperStr ext))
          init
        ↔ x ∈ init
          ∨ ∃ e ∈ exts, x ∈ globFiles files e ∨ x ∈ globFiles files (upperStr e)) := by
  induction exts with
  | nil =>
    intro init
    simp
  | cons e es ih =>
    intro init
    simp only [List.foldl_cons]
    rw [ih]
    constructor
    · rintro (h | ⟨w, hw, hor⟩)
      · rcases List.mem_append.1 h with h1 | h2
        · rcases List.mem_append.1 h1 with h3 | h4
          · exact Or.inl h3
          · exact Or.inr ⟨e, List.mem_cons_self _ _, Or.inl h4⟩
        · exact Or.inr ⟨e, List.mem_cons_self _ _, Or.inr h2⟩
      · exact Or.inr ⟨w, List.mem_cons_of_mem _ hw, hor⟩
    · rintro (h | ⟨w, hw, hor⟩)
      · exact Or.inl (List.mem_append.2 (Or.inl (List.mem_append.2 (Or.inl h))))
      · rcases List.mem_cons.1 hw with rfl | hw2
        · rcases hor with h1 | h2
          · exact Or.inl (List.mem_append.2 (Or.inl (List.mem_append.2 (Or.inr h1))))
          · exact Or.inl (List.mem_append.2 (Or.inr h2))
        · exact Or.inr ⟨w, hw2, hor⟩

/-- C9 (amended: a file is enumerated exactly when its name ends with a
configured extension or with that extension fully upper-cased — the
`glob` calls are case-sensitive, so other case variants such as `.Jpg`
for configured `.jpg` are missed): the enumeration is sorted into a
deterministic lexicographic order and the task list carries sequential
indices `0..n-1` in that order. -/
theorem find_images_spec (files exts : List String) :
    (∀ f, f ∈ findImages files exts
        ↔ f ∈ files
          ∧ ∃ e ∈ exts, (strEndsWith f e || strEndsWith f (upperStr e)) = true)
    ∧ (findImages files exts).Pairwise (fun a b => strLe a b = true)
    ∧ (imageTasks files exts).map Prod.fst
        = List.range (findImages files exts).length := by
  refine ⟨?_, ?_, ?_⟩
  · intro f
    unfold findImages
    rw [(sortOrd_perm _ _).mem_iff, mem_rawImages]
    simp only [List.not_mem_nil, false_or]
    constructor
    · rintro ⟨e, he, hor⟩
      rcases hor with h | h
      · rcases List.mem_filter.1 h with ⟨hf, hend⟩
        exact ⟨hf, e, he, by simp [hend]⟩
      · rcases List.mem_filter.1 h with ⟨hf, hend⟩
        exact ⟨hf, e, he, by simp [hend]⟩
    · rintro ⟨hf, e, he, hor⟩
      rcases (by simpa using hor :
          strEndsWith f e = true ∨ strEndsWith f (upperStr e) = true) with h | h
      · exact ⟨e, he, Or.inl (List.mem_filter.2 ⟨hf, h⟩)⟩
      · exact ⟨e, he, Or.inr (List.mem_filter.2 ⟨hf, h⟩)⟩
  · exact sortOrd_pairwise _ strLe_total strLe_trans _
  · unfold imageTasks
    exact List.enum_map_fst _

/-- C9 counterexample: with configured extension `.jpg`, the directory
entry `photo.Jpg` — a case variant the claim says is included — is not
enumerated, because the code only globs `*.jpg` and `*.JPG`. -/
theorem find_images_misses_mixed_case :
    findImages ["photo.Jpg"] [".jpg"] = []
    ∧ strEndsWith (lowerStr "photo.Jpg") (lowerStr ".jpg") = true := by
  constructor
  · decide
  · decide

end DetectX
